import Mathlib

/-!
Shallow embedding of the Google HashCode 2018 prelim ride-dispatch simulator
(src/util.rs, src/vehicle/mod.rs, src/scheduler/mod.rs).

Modelling conventions:
* Rust `i32` values (coordinates, time steps, distances, ids, scores) are
  modelled as `Int`; the program's arithmetic never relies on wrap-around.
* Rust `Vec` push/last access is modelled with Lean lists stored most-recent
  first: `push x` is `x :: l` and `last()` is `l.head?`.
* Rust panics (`assert!`, `unwrap()`, `unreachable!()`, indexing a missing
  `HashMap` key) are modelled by returning `none` from an `Option`-valued
  function.
* The `Rc<RefCell<Vehicle>>` aliasing between the fleet vector and the
  per-tick kd-tree is modelled by storing fleet indices in the tree.
-/

/-- `Coord` from util.rs: a 2D integer grid point. -/
structure Coord where
  x : Int
  y : Int
deriving DecidableEq, Repr

/-- `manhattan_dist` from util.rs: `i32::abs(a.x - b.x) + i32::abs(a.y - b.y)`. -/
def manhattan_dist (a b : Coord) : Int :=
  ((a.x - b.x).natAbs : Int) + ((a.y - b.y).natAbs : Int)

/-- `Coord::dist` from util.rs. -/
def Coord.dist (a b : Coord) : Int :=
  manhattan_dist a b

/-- `Coord::default`: the grid origin `(0, 0)`. -/
def Coord.origin : Coord := ⟨0, 0⟩

/-- `Job` from scheduler/mod.rs.  The Rust field `end` is named `jend` here
because `end` is a Lean keyword; `latest_end` keeps its source name. -/
structure Job where
  id : Int
  start : Coord
  jend : Coord
  earliest_start : Int
  latest_end : Int
deriving DecidableEq, Repr

/-- `Job::latest_finish` from scheduler/mod.rs. -/
def Job.latest_finish (j : Job) : Int := j.latest_end

/-- `Job::dist` from scheduler/mod.rs: `self.start.dist(&self.end)`. -/
def Job.dist (j : Job) : Int := j.start.dist j.jend

/-- `RideTaskType` from vehicle/mod.rs. -/
inductive RideTaskType where
  | Invalid
  | DrivingToStart
  | WaitingAtStart
  | DrivingToEnd
deriving DecidableEq, Repr

/-- `RideTask` from vehicle/mod.rs. -/
structure RideTask where
  task_type : RideTaskType
  rem_steps : Int
deriving DecidableEq, Repr

/-- `RideTask::is_idle`: `rem_steps == 0`. -/
def RideTask.is_idle (t : RideTask) : Bool :=
  t.rem_steps == 0

/-- `RideTask::has_arrived_at_start`. -/
def RideTask.has_arrived_at_start (t : RideTask) : Bool :=
  t.task_type == RideTaskType.DrivingToStart && t.is_idle

/-- `RideTask::is_done_waiting`. -/
def RideTask.is_done_waiting (t : RideTask) : Bool :=
  t.task_type == RideTaskType.WaitingAtStart && t.is_idle

/-- `RideTask::has_arrived_at_dest`. -/
def RideTask.has_arrived_at_dest (t : RideTask) : Bool :=
  t.task_type == RideTaskType.DrivingToEnd && t.is_idle

/-- `Vehicle` from vehicle/mod.rs.  `jobs` and `ride_tasks` are stored
most-recent first (Rust pushes to the back and reads `last()`). -/
structure Vehicle where
  id : Int
  jobs : List Job
  ride_tasks : List RideTask
  job_buffer : Option Job
deriving DecidableEq, Repr

/-- `Vehicle::current_task`: `ride_tasks.last()`. -/
def Vehicle.current_task (v : Vehicle) : Option RideTask :=
  v.ride_tasks.head?

/-- `Vehicle::current_job`: `jobs.last()`. -/
def Vehicle.current_job (v : Vehicle) : Option Job :=
  v.jobs.head?

/-- `Vehicle::current_pos` from vehicle/mod.rs.  The source unwraps
`current_job()` in the idle-task branches and hits `unreachable!()` on an
idle `Invalid` task; both panics are modelled by the `none` catch-all. -/
def Vehicle.current_pos (v : Vehicle) : Option Coord :=
  match v.current_task with
  | some t =>
    if t.is_idle then
      match t.task_type, v.current_job with
      | RideTaskType.DrivingToStart, some j => some j.start
      | RideTaskType.WaitingAtStart, some j => some j.start
      | RideTaskType.DrivingToEnd, some j => some j.jend
      | _, _ => none
    else
      none
  | none => some Coord.origin

/-- `Vehicle::is_idle` from vehicle/mod.rs. -/
def Vehicle.is_idle (v : Vehicle) : Bool :=
  v.job_buffer.isNone
    && (v.ride_tasks.isEmpty || (v.current_task.map RideTask.has_arrived_at_dest).getD false)

/-- Replace the current (`last()`) task, as `current_task_mut` mutation does. -/
def Vehicle.set_current_task (v : Vehicle) (t : RideTask) : Vehicle :=
  { v with ride_tasks := match v.ride_tasks with
                         | [] => [t]
                         | _ :: rest => t :: rest }

/-- `Vehicle::add_job_task` from vehicle/mod.rs.  Returns the constructed
task type together with the vehicle extended with the pushed task.  `none`
models the source's panics: the `current_pos().unwrap()` when the vehicle is
mid-drive, and the final `unreachable!()` branch. -/
def Vehicle.add_job_task (v : Vehicle) (job_start job_end : Coord)
    (job_earliest_start current_step : Int) : Option (RideTaskType × Vehicle) :=
  match v.current_pos with
  | none => none
  | some cur_pos =>
    let dist_to_end := cur_pos.dist job_end
    let dist_to_start := cur_pos.dist job_start
    if dist_to_start > 0 then
      some (RideTaskType.DrivingToStart,
            { v with ride_tasks := ⟨RideTaskType.DrivingToStart, dist_to_start⟩ :: v.ride_tasks })
    else if dist_to_start = 0 then
      if current_step ≥ job_earliest_start then
        some (RideTaskType.DrivingToEnd,
              { v with ride_tasks := ⟨RideTaskType.DrivingToEnd, dist_to_end⟩ :: v.ride_tasks })
      else
        some (RideTaskType.WaitingAtStart,
              { v with ride_tasks :=
                  ⟨RideTaskType.WaitingAtStart, job_earliest_start - current_step⟩ :: v.ride_tasks })
    else if dist_to_end > 0 then
      some (RideTaskType.DrivingToEnd,
            { v with ride_tasks := ⟨RideTaskType.DrivingToEnd, dist_to_end⟩ :: v.ride_tasks })
    else
      none

/-- `Vehicle::queue_new_job` from vehicle/mod.rs; `none` models the
`assert_eq!(self.job_buffer.is_none(), true)` failure. -/
def Vehicle.queue_new_job (v : Vehicle) (j : Job) : Option Vehicle :=
  if v.job_buffer.isSome then none
  else some { v with job_buffer := some j }

/-- Output of a single vehicle timestep (`TickComplete`).  The vehicle code
emits the fields of the current job that the scheduler consumes: `JobStart`
carries (id, dist, earliest_start) and `JobComplete` carries
(id, latest_finish, end coordinate). -/
inductive TickComplete where
  | Continue
  | JobStart (job_id length earliest_start : Int)
  | JobComplete (job_id latest_finish : Int) (jend : Coord)
deriving DecidableEq, Repr

/-- The re-task phase at the end of `Vehicle::tick` (vehicle/mod.rs lines
249-271): when the current task is idle but not a completed `DrivingToEnd`,
assert the buffer is empty and push the next task for the current job,
overriding the event with `JobStart` when the new task is `DrivingToEnd`
(the case where the waiting state is not available or skipped). -/
def Vehicle.retask_if_idle (out : TickComplete) (v2 : Vehicle) (current_step : Int) :
    Option (TickComplete × Vehicle) :=
  match v2.current_task with
  | none => some (out, v2)
  | some t =>
    if t.is_idle && !t.has_arrived_at_dest then
      if v2.job_buffer.isSome then none
      else
        match v2.current_job with
        | none => none
        | some j =>
          match Vehicle.add_job_task v2 j.start j.jend j.earliest_start current_step with
          | none => none
          | some (tt, v3) =>
            match tt with
            | RideTaskType.DrivingToEnd =>
              some (TickComplete.JobStart j.id j.dist j.earliest_start, v3)
            | _ => some (out, v3)
    else
      some (out, v2)

/-- The part of `Vehicle::tick` after the buffer load (vehicle/mod.rs lines
214-273): step the current task, emit the transition's event, and re-task an
idle not-yet-at-destination task from the vehicle's position.  `none` models
the panics: the `assert!(ride_tasks.len() > 0)`, the asserts inside
`RideTask::step`, the `unreachable!()` for an idle `Invalid` task, the
`assert_eq!(job_buffer, None)` before the re-task, and the `unwrap()`s of
the captured current-job fields. -/
def Vehicle.tick_loaded (v1 : Vehicle) (current_step : Int) :
    Option (TickComplete × Vehicle) :=
  if v1.ride_tasks.isEmpty then none
  else
      let step4 : Option (TickComplete × Vehicle) :=
        match v1.current_task with
        | none => some (TickComplete.Continue, v1)
        | some t =>
          if t.is_idle then some (TickComplete.Continue, v1)
          else if t.task_type == RideTaskType.Invalid then none
          else
            let t' : RideTask := ⟨t.task_type, t.rem_steps - 1⟩
            let v2 := v1.set_current_task t'
            if t'.is_idle then
              if t'.has_arrived_at_start then
                -- the job task will be updated next tick
                some (TickComplete.Continue, v2)
              else if t'.is_done_waiting then
                match v1.current_job with
                | none => none
                | some j => some (TickComplete.JobStart j.id j.dist j.earliest_start, v2)
              else if t'.has_arrived_at_dest then
                match v1.current_job with
                | none => none
                | some j => some (TickComplete.JobComplete j.id j.latest_finish j.jend, v2)
              else none
            else
              some (TickComplete.Continue, v2)
      match step4 with
      | none => none
      | some (out, v2) => Vehicle.retask_if_idle out v2 current_step

/-- `Vehicle::tick` from vehicle/mod.rs: load the buffered job, if any,
into a new task computed from the current position (pushing the job onto the
assignment history), then run the stepping phase. -/
def Vehicle.tick (v : Vehicle) (current_step : Int) : Option (TickComplete × Vehicle) :=
  -- load the job on the buffer, if any
  match v.job_buffer with
  | some new_jerb =>
    match Vehicle.add_job_task { v with job_buffer := none }
            new_jerb.start new_jerb.jend new_jerb.earliest_start current_step with
    | none => none
    | some (_, v1) =>
      Vehicle.tick_loaded { v1 with jobs := new_jerb :: v1.jobs } current_step
  | none => Vehicle.tick_loaded v current_step

/-- `Vehicle::assigned_rides`. -/
def Vehicle.assigned_rides (v : Vehicle) : List Int :=
  v.jobs.map Job.id

/-!
Scheduler (scheduler/mod.rs).  `job_scores` is the `HashMap<JobPtr, i32>`
modelled as an association list keyed by job id; the kd-tree of idle
vehicles is modelled as a list of (stored coordinate, fleet index) pairs.
-/

/-- `job_scores.insert`: replace the binding for `id`, or append it. -/
def insertScore (scores : List (Int × Int)) (id v : Int) : List (Int × Int) :=
  match scores with
  | [] => [(id, v)]
  | (k, s) :: rest => if k = id then (k, v) :: rest else (k, s) :: insertScore rest id v

/-- `job_scores[&job]`: lookup by job id. -/
def lookupScore (scores : List (Int × Int)) (id : Int) : Option Int :=
  match scores with
  | [] => none
  | (k, s) :: rest => if k = id then some s else lookupScore rest id

/-- The scheduler's handling of one vehicle-tick event inside
`tick_vehicles` (scheduler/mod.rs lines 205-222): on `JobStart` record the
negative score (with the bonus when the departure tick equals
`earliest_start`); on `JobComplete` flip the stored score's sign when
`current_step < latest_finish` and report the coordinate to add to the
bounding tree.  `none` models the panic of indexing a missing score key. -/
def processEvent (ride_bonus current_step : Int) (scores : List (Int × Int)) :
    TickComplete → Option (List (Int × Int) × Option Coord)
  | TickComplete.Continue => some (scores, none)
  | TickComplete.JobStart job_id length earliest_start =>
    let score := -(length + ride_bonus * (if current_step = earliest_start then 1 else 0))
    some (insertScore scores job_id score, none)
  | TickComplete.JobComplete job_id latest_finish c =>
    if current_step < latest_finish then
      match lookupScore scores job_id with
      | none => none
      | some s => some (insertScore scores job_id (-s), some c)
    else
      some (scores, some c)

/-- The fleet loop of `tick_vehicles` (scheduler/mod.rs lines 196-223): at
`current_step == 1` every vehicle is added to the bounding tree at its
current position without being ticked; at later steps each vehicle is
ticked and its event processed, vehicles completing a job being added to
the tree.  `i` is the fleet index of the first vehicle of the list. -/
def tickFleet (ride_bonus current_step : Int) :
    List (Int × Int) → List Vehicle → Nat →
    Option (List Vehicle × List (Int × Int) × List (Coord × Nat))
  | scores, [], _ => some ([], scores, [])
  | scores, v :: rest, i =>
    if current_step = 1 then
      match v.current_pos with
      | none => none
      | some c =>
        match tickFleet ride_bonus current_step scores rest (i + 1) with
        | none => none
        | some (fs, sc, tr) => some (v :: fs, sc, (c, i) :: tr)
    else
      match v.tick current_step with
      | none => none
      | some (ev, v1) =>
        match processEvent ride_bonus current_step scores ev with
        | none => none
        | some (scores1, entry) =>
          match tickFleet ride_bonus current_step scores1 rest (i + 1) with
          | none => none
          | some (fs, sc, tr) =>
            some (v1 :: fs, sc, (match entry with
                                 | some c => [(c, i)]
                                 | none => []) ++ tr)

/-- Simulation state: the fleet, the pending job pool and the score map. -/
structure SimState where
  fleet : List Vehicle
  rem_jobs : List Job
  job_scores : List (Int × Int)
deriving DecidableEq, Repr

/-- `JobScheduler::tick_vehicles`. -/
def tick_vehicles (ride_bonus current_step : Int) (st : SimState) :
    Option (SimState × List (Coord × Nat)) :=
  match tickFleet ride_bonus current_step st.job_scores st.fleet 0 with
  | none => none
  | some (fleet1, scores1, tree) =>
    some ({ st with fleet := fleet1, job_scores := scores1 }, tree)

/-- Insert a tree entry into a list kept sorted by city-block distance of
the stored coordinate from `start` (the kd-tree's `iter_nearest` order). -/
def insertByDist (start : Coord) (p : Coord × Nat) :
    List (Coord × Nat) → List (Coord × Nat)
  | [] => [p]
  | q :: rest =>
    if p.1.dist start ≤ q.1.dist start then p :: q :: rest
    else q :: insertByDist start p rest

/-- The fleet indices of the bounding tree in nearest-first order from
`start`, modelling `idle_vehicles.iter_nearest` with the L1 measure. -/
def orderFor (tree : List (Coord × Nat)) (start : Coord) : List Nat :=
  (tree.foldr (insertByDist start) []).map Prod.snd

/-- The candidate loop of `funky_scheduling` (scheduler/mod.rs lines
299-321) for a single job: walk the idle-vehicle candidates nearest first;
every idle vehicle is pushed onto `cands`; the first one passing the
(possibly relaxed) feasibility checks gets the job queued on it and is
returned with its fleet index.  `none` models the panics inside the loop
(`current_pos().unwrap()` and the `queue_new_job` assert). -/
def scanCandidates (fleet : List Vehicle) (relax_start relax_end : Bool)
    (current_step : Int) (j : Job) :
    List Nat → List Nat → Option (List Nat × Option (Nat × Vehicle))
  | [], cands => some (cands, none)
  | i :: rest, cands =>
    match fleet.get? i with
    | none => none
    | some v =>
      if v.is_idle then
        let cands1 := cands ++ [i]
        match v.current_pos with
        | none => none
        | some pos =>
          let dist_to_start := pos.dist j.start
          let tot_dist := dist_to_start + j.dist
          if relax_end ∨ current_step + tot_dist < j.latest_finish then
            if relax_start ∨ current_step + dist_to_start < j.earliest_start then
              match v.queue_new_job j with
              | none => none
              | some v1 => some (cands1, some (i, v1))
            else
              scanCandidates fleet relax_start relax_end current_step j rest cands1
          else
            scanCandidates fleet relax_start relax_end current_step j rest cands1
      else
        scanCandidates fleet relax_start relax_end current_step j rest cands

/-- The job loop of `funky_scheduling` (scheduler/mod.rs lines 285-322): scan
the pending jobs in order; on the first assignment return the pending list
with that job removed, the assigned fleet index and the updated vehicle. -/
def scanJobs (fleet : List Vehicle) (tree : List (Coord × Nat))
    (relax_start relax_end : Bool) (current_step : Int) :
    List Job → List Nat → Option (List Nat × Option (List Job × Job × Nat × Vehicle))
  | [], cands => some (cands, none)
  | j :: rest, cands =>
    match scanCandidates fleet relax_start relax_end current_step j
            (orderFor tree j.start) cands with
    | none => none
    | some (cands1, some (i, v1)) => some (cands1, some (rest, j, i, v1))
    | some (cands1, none) =>
      match scanJobs fleet tree relax_start relax_end current_step rest cands1 with
      | none => none
      | some (cands2, r) =>
        some (cands2, r.map (fun q => (j :: q.1, q.2.1, q.2.2.1, q.2.2.2)))

/-- One dispatch pass plus the follow-up passes: the `'assign_loop` of
`funky_scheduling` (scheduler/mod.rs lines 281-343).  On an assignment the
job leaves the pending pool, the vehicle is updated in the fleet and both
relaxation flags reset; with candidates but no assignment the flags are
relaxed one at a time; with no candidates the loop ends.  `none` models the
panics, including the `unreachable!()` with both flags set. -/
def funkyLoop (current_step : Int) (tree : List (Coord × Nat))
    (fleet : List Vehicle) (jobs : List Job) (relax_start relax_end : Bool) :
    Option (List Vehicle × List Job) :=
  match h : scanJobs fleet tree relax_start relax_end current_step jobs [] with
  | none => none
  | some (_, some (jobs', _, i, v1)) =>
    funkyLoop current_step tree (fleet.set i v1) jobs' false false
  | some (cands, none) =>
    if cands.isEmpty then some (fleet, jobs)
    else
      -- relax conditions one by one
      if hor : (!relax_start || !relax_end) then
        if hrs : (!relax_start) then
          funkyLoop current_step tree fleet jobs true relax_end
        else
          funkyLoop current_step tree fleet jobs relax_start true
      else
        none
termination_by (jobs.length, (if relax_start then 0 else 1) + (if relax_end then 0 else 1))
decreasing_by
  · have key : ∀ (jobsx : List Job) (cands cands' : List Nat) (jobs2 : List Job)
        (jx : Job) (ix : Nat) (vx : Vehicle),
        scanJobs fleet tree relax_start relax_end current_step jobsx cands =
          some (cands', some (jobs2, jx, ix, vx)) →
        jobs2.length < jobsx.length := by
      intro jobsx
      induction jobsx with
      | nil => intro cands cands' jobs2 jx ix vx hh; simp [scanJobs] at hh
      | cons j0 rest ih =>
        intro cands cands' jobs2 jx ix vx hh
        unfold scanJobs at hh
        rcases hs : scanCandidates fleet relax_start relax_end current_step j0
            (orderFor tree j0.start) cands with _ | ⟨cands1, r⟩ <;> rw [hs] at hh
        · simp at hh
        · rcases r with _ | ⟨i0, v0⟩
          · simp only [] at hh
            rcases hr : scanJobs fleet tree relax_start relax_end current_step rest cands1
                with _ | ⟨cands2, r2⟩ <;> rw [hr] at hh
            · simp at hh
            · rcases r2 with _ | ⟨jr, j2, i2, v2⟩
              · simp at hh
              · simp only [Option.map_some', Option.some.injEq, Prod.mk.injEq] at hh
                obtain ⟨-, hj, -, -, -⟩ := hh
                have hlt := ih cands1 cands2 jr j2 i2 v2 hr
                subst hj
                simp only [List.length_cons]
                omega
          · simp only [Option.some.injEq, Prod.mk.injEq] at hh
            obtain ⟨-, h2, -, -, -⟩ := hh
            subst h2
            simp
    exact Prod.Lex.left _ _ (key _ _ _ _ _ _ _ h)
  · apply Prod.Lex.right
    simp only [Bool.not_eq_true'] at hrs
    subst hrs
    simp
  · apply Prod.Lex.right
    simp only [Bool.not_eq_true', Bool.not_eq_false] at hrs
    subst hrs
    simp only [Bool.not_true, Bool.false_or, Bool.not_eq_true'] at hor
    subst hor
    simp

/-- `JobScheduler::funky_scheduling` (scheduler/mod.rs lines 275-345). -/
def funky_scheduling (current_step : Int) (tree : List (Coord × Nat))
    (fleet : List Vehicle) (jobs : List Job) : Option (List Vehicle × List Job) :=
  if tree.length > 0 then funkyLoop current_step tree fleet jobs false false
  else some (fleet, jobs)

/-- One iteration of the simulation loop in `JobScheduler::run`
(scheduler/mod.rs lines 355-360): tick the fleet, then dispatch. -/
def simStep (ride_bonus current_step : Int) (st : SimState) : Option SimState :=
  match tick_vehicles ride_bonus current_step st with
  | none => none
  | some (st1, tree) =>
    match funky_scheduling current_step tree st1.fleet st1.rem_jobs with
    | none => none
    | some (fleet1, jobs1) => some { st1 with fleet := fleet1, rem_jobs := jobs1 }

/-- `n` iterations of the simulation loop starting at tick `current_step`
(`run` performs `max_tsteps - 1` of them starting at tick 1). -/
def runSteps (ride_bonus : Int) : Nat → Int → SimState → Option SimState
  | 0, _, st => some st
  | n + 1, current_step, st =>
    match simStep ride_bonus current_step st with
    | none => none
    | some st1 => runSteps ride_bonus n (current_step + 1) st1

/-- `JobScheduler::calculate_score` (scheduler/mod.rs lines 385-387). -/
def calculate_score (scores : List (Int × Int)) : Int :=
  scores.foldl (fun a s => if s.2 > 0 then a + s.2 else a) 0

/-- The positions of a list of vehicles, `none` if any is mid-drive. -/
def positionsOf : List Vehicle → Option (List Coord)
  | [] => some []
  | v :: rest =>
    match v.current_pos with
    | none => none
    | some c =>
      match positionsOf rest with
      | none => none
      | some cs => some (c :: cs)

/-- The bounding tree holding the given coordinates, indexed from `i`. -/
def treeOf : List Coord → Nat → List (Coord × Nat)
  | [], _ => []
  | c :: cs, i => (c, i) :: treeOf cs (i + 1)

/-- The job ids a vehicle holds: its buffered job followed by its
assignment history. -/
def vehicleJobIds (v : Vehicle) : List Int :=
  (v.job_buffer.map Job.id).toList ++ v.jobs.map Job.id

/-- All job ids of a simulation state: the pending pool followed by every
vehicle's buffered job and assignment history. -/
def stateJobIds (st : SimState) : List Int :=
  st.rem_jobs.map Job.id ++ (st.fleet.map vehicleJobIds).flatten

/-!  Helper lemmas shared by the claim theorems. -/

/-- An idle vehicle has an empty job buffer. -/
theorem is_idle_buffer_none (v : Vehicle) (h : v.is_idle = true) : v.job_buffer = none := by
  simp only [Vehicle.is_idle, Bool.and_eq_true, Option.isNone_iff_eq_none] at h
  exact h.1

/-- Queueing on a vehicle with an empty buffer succeeds and fills the buffer. -/
theorem queue_new_job_of_buffer_none (v : Vehicle) (j : Job) (h : v.job_buffer = none) :
    v.queue_new_job j = some { v with job_buffer := some j } := by
  simp [Vehicle.queue_new_job, h]

/-- A vehicle with a buffered job is not idle. -/
theorem not_idle_of_buffer_some (v : Vehicle) (j : Job) :
    Vehicle.is_idle { v with job_buffer := some j } = false := by
  simp [Vehicle.is_idle]

/-- C1: in the dispatcher's scan, an idle-vehicle candidate at the head of
the candidate order is accepted for the pending job — the job is queued on
it — exactly when
`(relax_end ∨ current_step + (dist_to_start + j.dist) < j.latest_finish)`
and `(relax_start ∨ current_step + dist_to_start < j.earliest_start)`,
both comparisons strict, with `dist_to_start` the Manhattan distance from
the vehicle's position to the job's start; otherwise the scan records it as
a candidate and moves on to the remaining candidates. -/
theorem funky_accept_iff (fleet : List Vehicle) (relax_start relax_end : Bool)
    (current_step : Int) (j : Job) (i : Nat) (rest cands : List Nat)
    (v : Vehicle) (p : Coord)
    (hv : fleet.get? i = some v) (hidle : v.is_idle = true)
    (hp : v.current_pos = some p) :
    scanCandidates fleet relax_start relax_end current_step j (i :: rest) cands =
      if (relax_end = true ∨
            current_step + (manhattan_dist p j.start + j.dist) < j.latest_finish)
          ∧ (relax_start = true ∨
            current_step + manhattan_dist p j.start < j.earliest_start) then
        some (cands ++ [i], some (i, { v with job_buffer := some j }))
      else
        scanCandidates fleet relax_start relax_end current_step j rest (cands ++ [i]) := by
  have hb := is_idle_buffer_none v hidle
  have hq := queue_new_job_of_buffer_none v j hb
  by_cases h1 : (relax_end = true ∨
      current_step + (manhattan_dist p j.start + j.dist) < j.latest_finish) <;>
    by_cases h2 : (relax_start = true ∨
      current_step + manhattan_dist p j.start < j.earliest_start) <;>
    simp only [scanCandidates, hv, hidle, hp, hq, Coord.dist, if_true, if_false] <;>
    simp [h1, h2]

/-- Witness for C1 at a concrete accepted candidate. -/
theorem funky_accept_iff_witness :
    scanCandidates [⟨0, [], [], none⟩] false false 0 ⟨0, ⟨0, 0⟩, ⟨2, 0⟩, 5, 20⟩ [0] [] =
      some ([0], some (0, ⟨0, [], [], some ⟨0, ⟨0, 0⟩, ⟨2, 0⟩, 5, 20⟩⟩)) := by
  have h := funky_accept_iff [⟨0, [], [], none⟩] false false 0
    ⟨0, ⟨0, 0⟩, ⟨2, 0⟩, 5, 20⟩ 0 [] [] ⟨0, [], [], none⟩ ⟨0, 0⟩
    rfl (by decide) (by decide)
  rw [h, if_pos (by decide)]
  rfl

/-- Any assignment produced by the candidate scan came from queueing the job
on an idle fleet vehicle, and succeeded. -/
theorem scanCandidates_assign (fleet : List Vehicle) (relax_start relax_end : Bool)
    (current_step : Int) (j : Job) :
    ∀ (l cands cands' : List Nat) (i : Nat) (v1 v : Vehicle),
      scanCandidates fleet relax_start relax_end current_step j l cands =
        some (cands', some (i, v1)) →
      fleet.get? i = some v →
      v.is_idle = true ∧ v.queue_new_job j = some v1 ∧ v1.is_idle = false := by
  intro l
  induction l with
  | nil =>
    intro cands cands' i v1 v h hv
    simp [scanCandidates] at h
  | cons i0 rest ih =>
    intro cands cands' i v1 v h hv
    rw [scanCandidates] at h
    rcases hg : fleet.get? i0 with _ | v0 <;> rw [hg] at h <;> dsimp only at h
    · simp at h
    · by_cases hid : v0.is_idle = true
      · rw [if_pos hid] at h
        rcases hp : v0.current_pos with _ | p <;> rw [hp] at h <;> dsimp only at h
        · simp at h
        · by_cases h1 : (relax_end = true ∨
              current_step + (p.dist j.start + j.dist) < j.latest_finish)
          · rw [if_pos h1] at h
            by_cases h2 : (relax_start = true ∨
                current_step + p.dist j.start < j.earliest_start)
            · rw [if_pos h2] at h
              have hb := is_idle_buffer_none v0 hid
              rw [queue_new_job_of_buffer_none v0 j hb] at h
              simp only [Option.some.injEq, Prod.mk.injEq] at h
              obtain ⟨-, hi, hv1⟩ := h
              subst hi
              rw [hg] at hv
              cases hv
              exact ⟨hid, by rw [queue_new_job_of_buffer_none v j hb, ← hv1],
                by rw [← hv1]; exact not_idle_of_buffer_some v j⟩
            · rw [if_neg h2] at h
              exact ih _ _ _ _ _ h hv
          · rw [if_neg h1] at h
            exact ih _ _ _ _ _ h hv
      · rw [if_neg hid] at h
        exact ih _ _ _ _ _ h hv

/-- C6: `queue_new_job` demands an empty buffer (a non-empty buffer is the
fatal assertion, modelled as `none`); the dispatcher's scan only ever queues
a job on a vehicle that `is_idle()`, whose buffer is therefore empty, so the
call succeeds — and the queued vehicle is no longer idle, so it cannot be
assigned again within the pass. -/
theorem queue_new_job_assert_safe :
    (∀ (v : Vehicle) (j : Job), v.queue_new_job j = none ↔ v.job_buffer.isSome = true)
    ∧ (∀ (v : Vehicle) (j : Job), v.is_idle = true →
        v.queue_new_job j = some { v with job_buffer := some j }
        ∧ Vehicle.is_idle { v with job_buffer := some j } = false)
    ∧ (∀ (fleet : List Vehicle) (relax_start relax_end : Bool) (current_step : Int)
        (j : Job) (l cands cands' : List Nat) (i : Nat) (v1 v : Vehicle),
        scanCandidates fleet relax_start relax_end current_step j l cands =
          some (cands', some (i, v1)) →
        fleet.get? i = some v →
        v.is_idle = true ∧ v.queue_new_job j = some v1 ∧ v1.is_idle = false) := by
  refine ⟨?_, ?_, ?_⟩
  · intro v j
    rcases hb : v.job_buffer with _ | j0 <;> simp [Vehicle.queue_new_job, hb]
  · intro v j h
    exact ⟨queue_new_job_of_buffer_none v j (is_idle_buffer_none v h),
      not_idle_of_buffer_some v j⟩
  · intro fleet rs re step j l cands cands' i v1 v h hv
    exact scanCandidates_assign fleet rs re step j l cands cands' i v1 v h hv

/-- Witness for C6 at a concrete assignment. -/
theorem queue_new_job_assert_safe_witness :
    Vehicle.is_idle ⟨0, [], [], none⟩ = true
    ∧ Vehicle.queue_new_job ⟨0, [], [], none⟩ ⟨0, ⟨0, 0⟩, ⟨2, 0⟩, 5, 20⟩ =
        some ⟨0, [], [], some ⟨0, ⟨0, 0⟩, ⟨2, 0⟩, 5, 20⟩⟩
    ∧ Vehicle.is_idle ⟨0, [], [], some ⟨0, ⟨0, 0⟩, ⟨2, 0⟩, 5, 20⟩⟩ = false :=
  queue_new_job_assert_safe.2.2 [⟨0, [], [], none⟩] false false 0
    ⟨0, ⟨0, 0⟩, ⟨2, 0⟩, 5, 20⟩ [0] [] [0] 0
    ⟨0, [], [], some ⟨0, ⟨0, 0⟩, ⟨2, 0⟩, 5, 20⟩⟩ ⟨0, [], [], none⟩
    (by decide) rfl

/-- With both relaxation flags set, the candidate loop either assigns or
found no idle vehicle at all: a completed scan without assignment pushed no
candidate. -/
theorem scanCandidates_both_relaxed (fleet : List Vehicle) (current_step : Int) (j : Job) :
    ∀ (l cands cands' : List Nat),
      scanCandidates fleet true true current_step j l cands = some (cands', none) →
      cands' = cands := by
  intro l
  induction l with
  | nil =>
    intro cands cands' h
    simp [scanCandidates] at h
    exact h.symm
  | cons i0 rest ih =>
    intro cands cands' h
    rw [scanCandidates] at h
    rcases hg : fleet.get? i0 with _ | v0 <;> rw [hg] at h <;> dsimp only at h
    · simp at h
    · by_cases hid : v0.is_idle = true
      · rw [if_pos hid] at h
        rcases hp : v0.current_pos with _ | p <;> rw [hp] at h <;> dsimp only at h
        · simp at h
        · rw [if_pos (Or.inl rfl), if_pos (Or.inl rfl)] at h
          rcases hq : v0.queue_new_job j with _ | v1 <;> rw [hq] at h <;> dsimp only at h
          · simp at h
          · simp at h
      · rw [if_neg hid] at h
        exact ih _ _ h

/-- With both relaxation flags set, a full job scan without assignment found
no candidates at all. -/
theorem scanJobs_both_relaxed (fleet : List Vehicle) (tree : List (Coord × Nat))
    (current_step : Int) :
    ∀ (jobs : List Job) (cands cands' : List Nat),
      scanJobs fleet tree true true current_step jobs cands = some (cands', none) →
      cands' = cands := by
  intro jobs
  induction jobs with
  | nil =>
    intro cands cands' h
    simp [scanJobs] at h
    exact h.symm
  | cons j0 rest ih =>
    intro cands cands' h
    unfold scanJobs at h
    rcases hs : scanCandidates fleet true true current_step j0 (orderFor tree j0.start) cands
        with _ | ⟨cands1, r⟩ <;> rw [hs] at h
    · simp at h
    · rcases r with _ | ⟨i0, v0⟩
      · simp only [] at h
        rcases hr : scanJobs fleet tree true true current_step rest cands1
            with _ | ⟨cands2, r2⟩ <;> rw [hr] at h
        · simp at h
        · rcases r2 with _ | q
          · simp only [Option.map_none', Option.some.injEq, Prod.mk.injEq] at h
            obtain ⟨h2, -⟩ := h
            subst h2
            exact (ih _ _ hr).trans (scanCandidates_both_relaxed fleet current_step j0 _ _ _ hs)
          · simp at h
      · simp at h

/-- C5: when a full scan finds candidates but no assignment, the flags are
relaxed in order — `relax_start` first, then `relax_end` — and the state
with both flags already set never reaches the relaxation branch (its fatal
`unreachable!()` never executes), because a both-relaxed scan that assigns
nothing finds no candidates, so the loop takes the exit branch instead. -/
theorem funky_relax_order :
    (∀ (current_step : Int) (tree : List (Coord × Nat)) (fleet : List Vehicle)
        (jobs : List Job) (relax_end : Bool) (cands : List Nat),
      scanJobs fleet tree false relax_end current_step jobs [] = some (cands, none) →
      cands ≠ [] →
      funkyLoop current_step tree fleet jobs false relax_end =
        funkyLoop current_step tree fleet jobs true relax_end)
    ∧ (∀ (current_step : Int) (tree : List (Coord × Nat)) (fleet : List Vehicle)
        (jobs : List Job) (cands : List Nat),
      scanJobs fleet tree true false current_step jobs [] = some (cands, none) →
      cands ≠ [] →
      funkyLoop current_step tree fleet jobs true false =
        funkyLoop current_step tree fleet jobs true true)
    ∧ (∀ (current_step : Int) (tree : List (Coord × Nat)) (fleet : List Vehicle)
        (jobs : List Job) (cands : List Nat),
      scanJobs fleet tree true true current_step jobs [] = some (cands, none) →
      cands = []) := by
  refine ⟨?_, ?_, ?_⟩
  · intro step tree fleet jobs re cands h hne
    conv_lhs => rw [funkyLoop]
    rw [h]
    dsimp only
    rw [if_neg (by simpa [List.isEmpty_iff] using hne)]
    rfl
  · intro step tree fleet jobs cands h hne
    conv_lhs => rw [funkyLoop]
    rw [h]
    dsimp only
    rw [if_neg (by simpa [List.isEmpty_iff] using hne)]
    rfl
  · intro step tree fleet jobs cands h
    exact scanJobs_both_relaxed fleet tree step jobs [] cands h

/-- Witness for C5: with both flags set and an empty index, the scan
completes without assignment and indeed reports no candidates. -/
theorem funky_relax_order_witness :
    scanJobs [] [] true true 0 [⟨0, ⟨0, 0⟩, ⟨2, 0⟩, 5, 20⟩] [] = some ([], none)
    ∧ ([] : List Nat) = [] :=
  ⟨by decide, funky_relax_order.2.2 0 [] [] [⟨0, ⟨0, 0⟩, ⟨2, 0⟩, 5, 20⟩] [] (by decide)⟩

/-- Looking up a freshly inserted score returns it. -/
theorem lookupScore_insertScore (scores : List (Int × Int)) (id v : Int) :
    lookupScore (insertScore scores id v) id = some v := by
  induction scores with
  | nil => simp [insertScore, lookupScore]
  | cons p rest ih =>
    by_cases h : p.1 = id <;>
      simp [insertScore, lookupScore, h, ih]

/-- `calculate_score` folds the map's values adding only the positive ones. -/
theorem calculate_score_eq_sum_pos (scores : List (Int × Int)) :
    calculate_score scores = ((scores.map Prod.snd).filter (fun s => 0 < s)).sum := by
  have key : ∀ (l : List (Int × Int)) (a : Int),
      l.foldl (fun a s => if s.2 > 0 then a + s.2 else a) a =
        a + ((l.map Prod.snd).filter (fun s => 0 < s)).sum := by
    intro l
    induction l with
    | nil => simp
    | cons p rest ih =>
      intro a
      by_cases h : 0 < p.2 <;>
        · simp [List.foldl_cons, h, ih, List.filter_cons]
          try ring
  simpa using key scores 0

/-- C3: on `JobStart` processed at tick `t` the recorded score becomes
`-(length + ride_bonus)` when `t = earliest_start` and `-length` otherwise;
on `JobComplete` processed at tick `t` the stored score is negated exactly
when `t < latest_finish` and left unchanged otherwise; and
`calculate_score` sums exactly the strictly positive stored entries. -/
theorem scoring_model :
    (∀ (ride_bonus t : Int) (scores : List (Int × Int)) (id length earliest_start : Int),
      processEvent ride_bonus t scores (TickComplete.JobStart id length earliest_start) =
        some (insertScore scores id
          (if t = earliest_start then -(length + ride_bonus) else -length), none))
    ∧ (∀ (ride_bonus t : Int) (scores : List (Int × Int))
        (id latest_finish : Int) (c : Coord) (s : Int),
      lookupScore scores id = some s →
      processEvent ride_bonus t scores (TickComplete.JobComplete id latest_finish c) =
        some ((if t < latest_finish then insertScore scores id (-s) else scores), some c))
    ∧ (∀ (scores : List (Int × Int)) (id v : Int),
      lookupScore (insertScore scores id v) id = some v)
    ∧ (∀ (scores : List (Int × Int)),
      calculate_score scores = ((scores.map Prod.snd).filter (fun s => 0 < s)).sum) := by
  refine ⟨?_, ?_, lookupScore_insertScore, calculate_score_eq_sum_pos⟩
  · intro bonus t scores id length early
    by_cases h : t = early <;> simp [processEvent, h]
  · intro bonus t scores id latest c s hs
    by_cases h : t < latest <;> simp [processEvent, h, hs]

/-- Witness for C3: a concrete on-time completion flips the stored score. -/
theorem scoring_model_witness :
    processEvent 5 3 [((0 : Int), (-7 : Int))] (TickComplete.JobComplete 0 10 ⟨1, 2⟩) =
      some ([((0 : Int), (7 : Int))], some ⟨1, 2⟩) := by
  have h := scoring_model.2.1 5 3 [((0 : Int), (-7 : Int))] 0 10 ⟨1, 2⟩ (-7) (by decide)
  rw [h, if_pos (by decide)]
  rfl

/-- C9 counterexample: a vehicle waiting at the start with remaining ticks
is standing at the job's start point, yet `current_pos` returns `none`, not
the start coordinate the claim promises for the waiting state. -/
theorem current_pos_waiting_cex :
    Vehicle.current_pos
        ⟨0, [⟨7, ⟨3, 4⟩, ⟨9, 9⟩, 5, 50⟩], [⟨RideTaskType.WaitingAtStart, 1⟩], none⟩ = none
    ∧ Vehicle.current_pos
        ⟨0, [⟨7, ⟨3, 4⟩, ⟨9, 9⟩, 5, 50⟩], [⟨RideTaskType.WaitingAtStart, 1⟩], none⟩ ≠
      some ⟨3, 4⟩ := by
  exact ⟨rfl, by decide⟩

/-- C9 amended: `current_pos` is the origin with no task; `none` whenever
the current task has remaining steps (mid-drive, or still waiting); the
job's start once a `DrivingToStart` or `WaitingAtStart` task has no steps
left; and the job's end once a `DrivingToEnd` task has no steps left. -/
theorem current_pos_spec :
    (∀ v : Vehicle, v.ride_tasks = [] → v.current_pos = some Coord.origin)
    ∧ (∀ (v : Vehicle) (t : RideTask) (ts : List RideTask),
        v.ride_tasks = t :: ts → t.rem_steps ≠ 0 → v.current_pos = none)
    ∧ (∀ (v : Vehicle) (t : RideTask) (ts : List RideTask) (j : Job) (js : List Job),
        v.ride_tasks = t :: ts → v.jobs = j :: js → t.rem_steps = 0 →
        ((t.task_type = RideTaskType.DrivingToStart ∨
            t.task_type = RideTaskType.WaitingAtStart) → v.current_pos = some j.start)
        ∧ (t.task_type = RideTaskType.DrivingToEnd → v.current_pos = some j.jend)) := by
  refine ⟨?_, ?_, ?_⟩
  · intro v h
    simp [Vehicle.current_pos, Vehicle.current_task, h]
  · intro v t ts h hrem
    simp [Vehicle.current_pos, Vehicle.current_task, h, RideTask.is_idle, hrem]
  · intro v t ts j js h hj hrem
    constructor
    · rintro (ht | ht) <;>
        simp [Vehicle.current_pos, Vehicle.current_task, Vehicle.current_job, h, hj,
          RideTask.is_idle, hrem, ht]
    · intro ht
      simp [Vehicle.current_pos, Vehicle.current_task, Vehicle.current_job, h, hj,
        RideTask.is_idle, hrem, ht]

/-- Witness for C9 amended: an arrived `DrivingToStart` task reports the
job's start point. -/
theorem current_pos_spec_witness :
    Vehicle.current_pos
        ⟨0, [⟨7, ⟨3, 4⟩, ⟨9, 9⟩, 5, 50⟩], [⟨RideTaskType.DrivingToStart, 0⟩], none⟩ =
      some ⟨3, 4⟩ :=
  (current_pos_spec.2.2
    ⟨0, [⟨7, ⟨3, 4⟩, ⟨9, 9⟩, 5, 50⟩], [⟨RideTaskType.DrivingToStart, 0⟩], none⟩
    ⟨RideTaskType.DrivingToStart, 0⟩ [] ⟨7, ⟨3, 4⟩, ⟨9, 9⟩, 5, 50⟩ []
    rfl rfl rfl).1 (Or.inl rfl)

/-- C2 counterexample: a buffered job materialized while the vehicle already
stands at the job's start point with `current_step ≥ earliest_start` enters
`DrivingToEnd` this very tick, yet the tick returns `Continue`, not the
`JobStart` event the claim promises for this direct pass-through. -/
theorem tick_passthrough_cex :
    Vehicle.tick ⟨0, [], [], some ⟨0, ⟨0, 0⟩, ⟨0, 2⟩, 0, 10⟩⟩ 1 =
      some (TickComplete.Continue,
        ⟨0, [⟨0, ⟨0, 0⟩, ⟨0, 2⟩, 0, 10⟩], [⟨RideTaskType.DrivingToEnd, 1⟩], none⟩)
    ∧ Vehicle.tick ⟨0, [], [], some ⟨0, ⟨0, 0⟩, ⟨0, 2⟩, 0, 10⟩⟩ 1 ≠
      some (TickComplete.JobStart 0 2 0,
        ⟨0, [⟨0, ⟨0, 0⟩, ⟨0, 2⟩, 0, 10⟩], [⟨RideTaskType.DrivingToEnd, 1⟩], none⟩) := by
  exact ⟨by decide, by decide⟩

/-- C2 amended: the tick returns `JobStart(id, length, earliest_start)` when
a `WaitingAtStart` task finishes this tick, and when an idle arrived-at-start
task is re-tasked into `DrivingToEnd` (`current_step ≥ earliest_start`); but
a buffered job materialized directly into `DrivingToEnd` while the vehicle
stands at the start point produces no `JobStart`: the tick returns
`Continue` (or `JobComplete` when the ride also finishes this tick). -/
theorem tick_jobstart_events :
    (∀ (vid : Int) (j : Job) (js : List Job) (ts : List RideTask) (t : Int),
      Vehicle.tick ⟨vid, j :: js, ⟨RideTaskType.WaitingAtStart, 1⟩ :: ts, none⟩ t =
        some (TickComplete.JobStart j.id j.dist j.earliest_start,
          ⟨vid, j :: js,
            (if j.earliest_start ≤ t then (⟨RideTaskType.DrivingToEnd, j.dist⟩ : RideTask)
             else ⟨RideTaskType.WaitingAtStart, j.earliest_start - t⟩) ::
              ⟨RideTaskType.WaitingAtStart, 0⟩ :: ts, none⟩))
    ∧ (∀ (vid : Int) (j : Job) (js : List Job) (ts : List RideTask) (t : Int),
      j.earliest_start ≤ t →
      Vehicle.tick ⟨vid, j :: js, ⟨RideTaskType.DrivingToStart, 0⟩ :: ts, none⟩ t =
        some (TickComplete.JobStart j.id j.dist j.earliest_start,
          ⟨vid, j :: js,
            ⟨RideTaskType.DrivingToEnd, j.dist⟩ ::
              ⟨RideTaskType.DrivingToStart, 0⟩ :: ts, none⟩))
    ∧ (∀ (vid : Int) (j : Job) (t : Int),
      j.start = Coord.origin → j.earliest_start ≤ t → 1 < j.dist →
      Vehicle.tick ⟨vid, [], [], some j⟩ t =
        some (TickComplete.Continue,
          ⟨vid, [j], [⟨RideTaskType.DrivingToEnd, j.dist - 1⟩], none⟩)) := by
  refine ⟨?_, ?_, ?_⟩
  · intro vid j js ts t
    by_cases h : j.earliest_start ≤ t <;>
      simp [Vehicle.tick, Vehicle.tick_loaded, Vehicle.retask_if_idle, Vehicle.add_job_task, Vehicle.current_pos, Vehicle.current_task,
        Vehicle.current_job, Vehicle.set_current_task, RideTask.is_idle,
        RideTask.is_done_waiting, RideTask.has_arrived_at_start, RideTask.has_arrived_at_dest,
        Coord.dist, manhattan_dist, Job.dist, ge_iff_le, h]
  · intro vid j js ts t h
    simp [Vehicle.tick, Vehicle.tick_loaded, Vehicle.retask_if_idle, Vehicle.add_job_task, Vehicle.current_pos, Vehicle.current_task,
      Vehicle.current_job, Vehicle.set_current_task, RideTask.is_idle,
      RideTask.is_done_waiting, RideTask.has_arrived_at_start, RideTask.has_arrived_at_dest,
      Coord.dist, manhattan_dist, Job.dist, ge_iff_le, h]
  · intro vid j t hstart h hdist
    have hd : (|j.jend.x| + |j.jend.y| : Int) = j.dist := by
      simp [Job.dist, Coord.dist, manhattan_dist, hstart, Coord.origin]
    have h0 : ¬(j.dist = (0 : Int)) := by omega
    have h1 : ¬(j.dist - 1 = (0 : Int)) := by omega
    simp [Vehicle.tick, Vehicle.tick_loaded, Vehicle.retask_if_idle, Vehicle.add_job_task, Vehicle.current_pos, Vehicle.current_task,
      Vehicle.current_job, Vehicle.set_current_task, RideTask.is_idle,
      RideTask.is_done_waiting, RideTask.has_arrived_at_start, RideTask.has_arrived_at_dest,
      Coord.dist, manhattan_dist, ge_iff_le, h, hstart, Coord.origin, hd, h0, h1]

/-- Witness for C2 amended at a concrete arrived-at-start re-task. -/
theorem tick_jobstart_events_witness :
    Vehicle.tick ⟨0, [⟨1, ⟨3, 0⟩, ⟨3, 5⟩, 6, 30⟩], [⟨RideTaskType.DrivingToStart, 0⟩], none⟩ 6 =
      some (TickComplete.JobStart 1 5 6,
        ⟨0, [⟨1, ⟨3, 0⟩, ⟨3, 5⟩, 6, 30⟩],
          [⟨RideTaskType.DrivingToEnd, 5⟩, ⟨RideTaskType.DrivingToStart, 0⟩], none⟩) := by
  have h := tick_jobstart_events.2.1 0 ⟨1, ⟨3, 0⟩, ⟨3, 5⟩, 6, 30⟩ [] [] 6 (by decide)
  simpa using h

/-- C7: a vehicle whose `DrivingToStart` task finishes exactly at
`earliest_start` skips `WaitingAtStart`, enters `DrivingToEnd` the same tick
with a `JobStart` event, and the scheduler records the bonus-bearing score;
a vehicle whose `DrivingToStart` task finishes one tick early enters
`WaitingAtStart(1)`, and when it departs at tick `t ≥ earliest_start` the
recorded score carries the bonus exactly when `t = earliest_start`. -/
theorem arrival_boundary :
    (∀ (ride_bonus vid : Int) (j : Job) (js : List Job) (ts : List RideTask)
        (scores : List (Int × Int)),
      Vehicle.tick ⟨vid, j :: js, ⟨RideTaskType.DrivingToStart, 1⟩ :: ts, none⟩
          j.earliest_start =
        some (TickComplete.JobStart j.id j.dist j.earliest_start,
          ⟨vid, j :: js,
            ⟨RideTaskType.DrivingToEnd, j.dist⟩ ::
              ⟨RideTaskType.DrivingToStart, 0⟩ :: ts, none⟩)
      ∧ processEvent ride_bonus j.earliest_start scores
          (TickComplete.JobStart j.id j.dist j.earliest_start) =
        some (insertScore scores j.id (-(j.dist + ride_bonus)), none)
      ∧ lookupScore (insertScore scores j.id (-(j.dist + ride_bonus))) j.id =
        some (-(j.dist + ride_bonus)))
    ∧ (∀ (vid : Int) (j : Job) (js : List Job) (ts : List RideTask),
      Vehicle.tick ⟨vid, j :: js, ⟨RideTaskType.DrivingToStart, 1⟩ :: ts, none⟩
          (j.earliest_start - 1) =
        some (TickComplete.Continue,
          ⟨vid, j :: js,
            ⟨RideTaskType.WaitingAtStart, 1⟩ ::
              ⟨RideTaskType.DrivingToStart, 0⟩ :: ts, none⟩))
    ∧ (∀ (ride_bonus vid : Int) (j : Job) (js : List Job) (ts : List RideTask)
        (scores : List (Int × Int)) (t : Int),
      j.earliest_start ≤ t →
      Vehicle.tick ⟨vid, j :: js, ⟨RideTaskType.WaitingAtStart, 1⟩ :: ts, none⟩ t =
        some (TickComplete.JobStart j.id j.dist j.earliest_start,
          ⟨vid, j :: js,
            ⟨RideTaskType.DrivingToEnd, j.dist⟩ ::
              ⟨RideTaskType.WaitingAtStart, 0⟩ :: ts, none⟩)
      ∧ processEvent ride_bonus t scores
          (TickComplete.JobStart j.id j.dist j.earliest_start) =
        some (insertScore scores j.id
          (if t = j.earliest_start then -(j.dist + ride_bonus) else -j.dist), none)) := by
  refine ⟨?_, ?_, ?_⟩
  · intro bonus vid j js ts scores
    refine ⟨?_, ?_, lookupScore_insertScore scores j.id (-(j.dist + bonus))⟩
    · simp [Vehicle.tick, Vehicle.tick_loaded, Vehicle.retask_if_idle, Vehicle.add_job_task, Vehicle.current_pos, Vehicle.current_task,
        Vehicle.current_job, Vehicle.set_current_task, RideTask.is_idle,
        RideTask.is_done_waiting, RideTask.has_arrived_at_start, RideTask.has_arrived_at_dest,
        Coord.dist, manhattan_dist, Job.dist, ge_iff_le]
    · simp [processEvent]
  · intro vid j js ts
    have hlt : ¬(j.earliest_start ≤ j.earliest_start - 1) := by omega
    have hone : j.earliest_start - (j.earliest_start - 1) = 1 := by ring
    simp [Vehicle.tick, Vehicle.tick_loaded, Vehicle.retask_if_idle, Vehicle.add_job_task, Vehicle.current_pos, Vehicle.current_task,
      Vehicle.current_job, Vehicle.set_current_task, RideTask.is_idle,
      RideTask.is_done_waiting, RideTask.has_arrived_at_start, RideTask.has_arrived_at_dest,
      Coord.dist, manhattan_dist, Job.dist, ge_iff_le, hlt, hone]
  · intro bonus vid j js ts scores t h
    constructor
    · simp [Vehicle.tick, Vehicle.tick_loaded, Vehicle.retask_if_idle, Vehicle.add_job_task, Vehicle.current_pos, Vehicle.current_task,
        Vehicle.current_job, Vehicle.set_current_task, RideTask.is_idle,
        RideTask.is_done_waiting, RideTask.has_arrived_at_start, RideTask.has_arrived_at_dest,
        Coord.dist, manhattan_dist, Job.dist, ge_iff_le, h]
    · by_cases he : t = j.earliest_start <;> simp [processEvent, he]

/-- Witness for C7 at a concrete on-time departure from the waiting state. -/
theorem arrival_boundary_witness :
    Vehicle.tick ⟨0, [⟨1, ⟨3, 0⟩, ⟨3, 5⟩, 6, 30⟩], [⟨RideTaskType.WaitingAtStart, 1⟩], none⟩ 6 =
      some (TickComplete.JobStart 1 5 6,
        ⟨0, [⟨1, ⟨3, 0⟩, ⟨3, 5⟩, 6, 30⟩],
          [⟨RideTaskType.DrivingToEnd, 5⟩, ⟨RideTaskType.WaitingAtStart, 0⟩], none⟩)
    ∧ processEvent 2 6 [] (TickComplete.JobStart 1 5 6) =
      some ([((1 : Int), (-7 : Int))], none) := by
  have h := arrival_boundary.2.2 2 0 ⟨1, ⟨3, 0⟩, ⟨3, 5⟩, 6, 30⟩ [] [] [] 6 (by decide)
  obtain ⟨h1, h2⟩ := h
  refine ⟨by simpa [Job.dist, Coord.dist, manhattan_dist] using h1, ?_⟩
  simpa [Job.dist, Coord.dist, manhattan_dist, insertScore] using h2


/-- A vehicle with no buffered job and no ride task makes `tick` hit the
`assert!(self.ride_tasks.len() > 0)` (modelled as `none`). -/
theorem tick_none_of_fresh (v : Vehicle) (t : Int)
    (hb : v.job_buffer = none) (ht : v.ride_tasks = []) :
    Vehicle.tick v t = none := by
  simp [Vehicle.tick, Vehicle.tick_loaded, Vehicle.retask_if_idle, hb, ht]

/-- A fleet containing a never-assigned vehicle aborts `tick_vehicles` at
any step other than 1. -/
theorem tickFleet_none_of_fresh (ride_bonus current_step : Int) (vid : Int)
    (hstep : current_step ≠ 1) :
    ∀ (fleet : List Vehicle) (scores : List (Int × Int)) (i : Nat),
      (⟨vid, [], [], none⟩ : Vehicle) ∈ fleet →
      tickFleet ride_bonus current_step scores fleet i = none := by
  intro fleet
  induction fleet with
  | nil => intro scores i hmem; simp at hmem
  | cons v rest ih =>
    intro scores i hmem
    rw [tickFleet, if_neg hstep]
    rcases List.mem_cons.1 hmem with hv | hv
    · rw [← hv, tick_none_of_fresh _ _ rfl rfl]
    · rcases htick : v.tick current_step with _ | ⟨ev, v1⟩
      · rfl
      · dsimp only
        rcases hpe : processEvent ride_bonus current_step scores ev with _ | ⟨scores1, entry⟩
        · rfl
        · dsimp only
          rw [ih scores1 (i + 1) hv]

/-- C10: `tick` on a vehicle with an empty buffer and empty task stack is a
fatal assertion failure; since the loop ticks every vehicle at every step
other than the first, a simulation step aborts whenever the fleet still
contains a never-assigned vehicle. -/
theorem unassigned_vehicle_aborts :
    (∀ (v : Vehicle) (t : Int), v.job_buffer = none → v.ride_tasks = [] →
      Vehicle.tick v t = none)
    ∧ (∀ (ride_bonus current_step : Int) (st : SimState) (vid : Int),
      current_step ≠ 1 → (⟨vid, [], [], none⟩ : Vehicle) ∈ st.fleet →
      simStep ride_bonus current_step st = none) := by
  refine ⟨tick_none_of_fresh, ?_⟩
  intro bonus step st vid hstep hmem
  rw [simStep, tick_vehicles, tickFleet_none_of_fresh bonus step vid hstep st.fleet st.job_scores 0 hmem]

/-- Witness for C10: one fresh vehicle aborts step 2. -/
theorem unassigned_vehicle_aborts_witness :
    simStep 0 2 ⟨[⟨0, [], [], none⟩], [], []⟩ = none :=
  unassigned_vehicle_aborts.2 0 2 ⟨[⟨0, [], [], none⟩], [], []⟩ 0
    (by decide) (by simp)

/-- C4 counterexample: at step 2 a vehicle that is idle at the start of the
tick (its `DrivingToEnd` task already completed) has a position, yet the
bounding tree handed to the dispatcher is empty: only vehicles completing a
job this very tick are indexed. -/
theorem spatial_index_cex :
    Vehicle.is_idle
        ⟨0, [⟨1, ⟨3, 0⟩, ⟨3, 5⟩, 6, 30⟩], [⟨RideTaskType.DrivingToEnd, 0⟩], none⟩ = true
    ∧ Vehicle.current_pos
        ⟨0, [⟨1, ⟨3, 0⟩, ⟨3, 5⟩, 6, 30⟩], [⟨RideTaskType.DrivingToEnd, 0⟩], none⟩ =
      some ⟨3, 5⟩
    ∧ tick_vehicles 2 2
        ⟨[⟨0, [⟨1, ⟨3, 0⟩, ⟨3, 5⟩, 6, 30⟩], [⟨RideTaskType.DrivingToEnd, 0⟩], none⟩], [],
          [(1, 0)]⟩ =
      some (⟨[⟨0, [⟨1, ⟨3, 0⟩, ⟨3, 5⟩, 6, 30⟩], [⟨RideTaskType.DrivingToEnd, 0⟩], none⟩],
        [], [(1, 0)]⟩, []) := by
  exact ⟨by decide, by decide, by decide⟩

/-- C4 amended: at tick 1 every vehicle enters the spatial index at its
current position without being ticked; at any other tick a vehicle already
idle at the start of the tick is ticked but contributes no index entry,
while a vehicle whose tick returns `JobComplete` enters the index at the
completion coordinate. -/
theorem spatial_index_contents :
    (∀ (ride_bonus : Int) (scores : List (Int × Int)) (fleet : List Vehicle)
        (ps : List Coord) (i : Nat),
      positionsOf fleet = some ps →
      tickFleet ride_bonus 1 scores fleet i = some (fleet, scores, treeOf ps i))
    ∧ (∀ (ride_bonus current_step : Int) (scores : List (Int × Int)) (vid : Int)
        (j : Job) (js : List Job) (ts : List RideTask) (rest : List Vehicle) (i : Nat),
      current_step ≠ 1 →
      tickFleet ride_bonus current_step scores
          (⟨vid, j :: js, ⟨RideTaskType.DrivingToEnd, 0⟩ :: ts, none⟩ :: rest) i =
        match tickFleet ride_bonus current_step scores rest (i + 1) with
        | none => none
        | some (fs, sc, tr) =>
          some (⟨vid, j :: js, ⟨RideTaskType.DrivingToEnd, 0⟩ :: ts, none⟩ :: fs, sc, tr))
    ∧ (∀ (ride_bonus current_step : Int) (scores : List (Int × Int)) (v v1 : Vehicle)
        (rest : List Vehicle) (i : Nat) (id lf : Int) (c : Coord) (s : Int),
      current_step ≠ 1 →
      v.tick current_step = some (TickComplete.JobComplete id lf c, v1) →
      lookupScore scores id = some s →
      tickFleet ride_bonus current_step scores (v :: rest) i =
        match tickFleet ride_bonus current_step
            (if current_step < lf then insertScore scores id (-s) else scores)
            rest (i + 1) with
        | none => none
        | some (fs, sc, tr) => some (v1 :: fs, sc, (c, i) :: tr)) := by
  refine ⟨?_, ?_, ?_⟩
  · intro bonus scores fleet
    induction fleet with
    | nil =>
      intro ps i hp
      simp [positionsOf] at hp
      subst hp
      simp [tickFleet, treeOf]
    | cons v rest ih =>
      intro ps i hp
      rw [positionsOf] at hp
      rcases hc : v.current_pos with _ | c <;> rw [hc] at hp
      · simp at hp
      · rcases hr : positionsOf rest with _ | cs <;> rw [hr] at hp
        · simp at hp
        · simp only [Option.some.injEq] at hp
          subst hp
          rw [tickFleet, if_pos rfl, hc, ih cs (i + 1) hr]
          simp [treeOf]
  · intro bonus step scores vid j js ts rest i hstep
    have htick : Vehicle.tick ⟨vid, j :: js, ⟨RideTaskType.DrivingToEnd, 0⟩ :: ts, none⟩ step =
        some (TickComplete.Continue, ⟨vid, j :: js, ⟨RideTaskType.DrivingToEnd, 0⟩ :: ts, none⟩) := by
      simp [Vehicle.tick, Vehicle.tick_loaded, Vehicle.retask_if_idle, Vehicle.current_task, Vehicle.current_job,
        RideTask.is_idle, RideTask.has_arrived_at_dest]
    rw [tickFleet, if_neg hstep, htick]
    dsimp only
    rcases hres : tickFleet bonus step scores rest (i + 1) with _ | ⟨fs, sc, tr⟩ <;>
      simp [processEvent, hres]
  · intro bonus step scores v v1 rest i id lf c s hstep htick hsc
    rw [tickFleet, if_neg hstep, htick]
    dsimp only
    by_cases hlt : step < lf
    · rcases hres : tickFleet bonus step (insertScore scores id (-s)) rest (i + 1) with
        _ | ⟨fs, sc, tr⟩ <;> simp [processEvent, hlt, hsc, hres]
    · rcases hres : tickFleet bonus step scores rest (i + 1) with _ | ⟨fs, sc, tr⟩ <;>
        simp [processEvent, hlt, hres]

/-- Witness for C4 amended: tick 1 indexes a fresh vehicle at the origin. -/
theorem spatial_index_contents_witness :
    tickFleet 2 1 [] [⟨0, [], [], none⟩] 0 =
      some ([⟨0, [], [], none⟩], [], [(⟨0, 0⟩, 0)]) := by
  have h := spatial_index_contents.1 2 [] [⟨0, [], [], none⟩] [⟨0, 0⟩] 0 (by decide)
  simpa [treeOf] using h

/-- `add_job_task` only pushes a ride task: history and buffer unchanged. -/
theorem add_job_task_jobs (v : Vehicle) (a b : Coord) (e t : Int)
    (tt : RideTaskType) (v1 : Vehicle)
    (h : v.add_job_task a b e t = some (tt, v1)) :
    v1.jobs = v.jobs ∧ v1.job_buffer = v.job_buffer := by
  unfold Vehicle.add_job_task at h
  rcases hp : v.current_pos with _ | p <;> rw [hp] at h
  · simp at h
  · simp only [] at h
    split at h
    · simp only [Option.some.injEq, Prod.mk.injEq] at h
      obtain ⟨-, h2⟩ := h
      subst h2
      exact ⟨rfl, rfl⟩
    · split at h
      · split at h
        · simp only [Option.some.injEq, Prod.mk.injEq] at h
          obtain ⟨-, h2⟩ := h
          subst h2
          exact ⟨rfl, rfl⟩
        · simp only [Option.some.injEq, Prod.mk.injEq] at h
          obtain ⟨-, h2⟩ := h
          subst h2
          exact ⟨rfl, rfl⟩
      · split at h
        · simp only [Option.some.injEq, Prod.mk.injEq] at h
          obtain ⟨-, h2⟩ := h
          subst h2
          exact ⟨rfl, rfl⟩
        · simp at h

/-- The re-task phase preserves the history and the buffer. -/
theorem retask_jobs (out : TickComplete) (v2 : Vehicle) (t : Int)
    (ev : TickComplete) (v1 : Vehicle)
    (h : Vehicle.retask_if_idle out v2 t = some (ev, v1)) :
    v1.jobs = v2.jobs ∧ v1.job_buffer = v2.job_buffer := by
  unfold Vehicle.retask_if_idle at h
  repeat' split at h
  all_goals first
    | (simp only [Option.some.injEq, Prod.mk.injEq] at h
       obtain ⟨-, h2⟩ := h
       subst h2
       first
         | exact ⟨rfl, rfl⟩
         | exact add_job_task_jobs _ _ _ _ _ _ _ (by assumption))
    | simp at h

/-- The stepping phase preserves the history and the buffer. -/
theorem tick_loaded_jobs (vL : Vehicle) (t : Int) (ev : TickComplete) (v1 : Vehicle)
    (h : vL.tick_loaded t = some (ev, v1)) :
    v1.jobs = vL.jobs ∧ v1.job_buffer = vL.job_buffer := by
  unfold Vehicle.tick_loaded at h
  split at h
  · simp at h
  · simp only [] at h
    split at h
    · simp at h
    · rename_i out v2 heq
      have h2 := retask_jobs out v2 t ev v1 h
      have h3 : v2.jobs = vL.jobs ∧ v2.job_buffer = vL.job_buffer := by
        clear h h2
        repeat' split at heq
        all_goals first
          | (simp only [Option.some.injEq, Prod.mk.injEq] at heq
             obtain ⟨-, h4⟩ := heq
             subst h4
             exact ⟨rfl, rfl⟩)
          | simp at heq
      exact ⟨h2.1.trans h3.1, h2.2.trans h3.2⟩

/-- A successful tick moves the buffered job (if any) into the history and
leaves the buffer empty; no other history change happens. -/
theorem tick_ids (v : Vehicle) (t : Int) (ev : TickComplete) (v1 : Vehicle)
    (h : v.tick t = some (ev, v1)) :
    v1.jobs.map Job.id = (v.job_buffer.map Job.id).toList ++ v.jobs.map Job.id
    ∧ v1.job_buffer = none := by
  unfold Vehicle.tick at h
  rcases hb : v.job_buffer with _ | j <;> rw [hb] at h <;> (try simp only [] at h)
  · have hl := tick_loaded_jobs v t ev v1 h
    rw [hl.1, hl.2, hb]
    simp
  · rcases ha : Vehicle.add_job_task { v with job_buffer := none }
        j.start j.jend j.earliest_start t with _ | ⟨tt0, w⟩ <;> rw [ha] at h
    · simp at h
    · have hw := add_job_task_jobs _ _ _ _ _ _ _ ha
      have hl := tick_loaded_jobs { w with jobs := j :: w.jobs } t ev v1 h
      have hwj : w.jobs = v.jobs := hw.1
      have hwb : w.job_buffer = none := hw.2
      constructor
      · rw [hl.1]
        simp [hwj]
      · rw [hl.2]
        simp [hwb]

/-- A successful tick preserves each vehicle's set of held job ids. -/
theorem tick_vehicleJobIds (v : Vehicle) (t : Int) (ev : TickComplete) (v1 : Vehicle)
    (h : v.tick t = some (ev, v1)) :
    vehicleJobIds v1 = vehicleJobIds v := by
  have h1 := tick_ids v t ev v1 h
  rw [vehicleJobIds, vehicleJobIds, h1.1, h1.2]
  simp

/-- The fleet loop preserves the concatenation of held job ids. -/
theorem tickFleet_flatten (ride_bonus current_step : Int) :
    ∀ (fleet : List Vehicle) (scores : List (Int × Int)) (i : Nat)
      (fleet1 : List Vehicle) (scores1 : List (Int × Int)) (tree : List (Coord × Nat)),
      tickFleet ride_bonus current_step scores fleet i = some (fleet1, scores1, tree) →
      (fleet1.map vehicleJobIds).flatten = (fleet.map vehicleJobIds).flatten := by
  intro fleet
  induction fleet with
  | nil =>
    intro scores i fleet1 scores1 tree h
    simp only [tickFleet, Option.some.injEq, Prod.mk.injEq] at h
    obtain ⟨h1, -, -⟩ := h
    rw [← h1]
  | cons v rest ih =>
    intro scores i fleet1 scores1 tree h
    rw [tickFleet] at h
    by_cases h1 : current_step = 1
    · rw [if_pos h1] at h
      rcases hc : v.current_pos with _ | c <;> rw [hc] at h
      · simp at h
      · rcases hr : tickFleet ride_bonus current_step scores rest (i + 1) with
          _ | ⟨fs, sc, tr⟩ <;> rw [hr] at h
        · simp at h
        · simp only [Option.some.injEq, Prod.mk.injEq] at h
          obtain ⟨h2, -, -⟩ := h
          rw [← h2]
          simp only [List.map_cons, List.flatten_cons]
          rw [ih scores (i + 1) fs sc tr hr]
    · rw [if_neg h1] at h
      rcases ht : v.tick current_step with _ | ⟨evt, w⟩ <;> rw [ht] at h
      · simp at h
      · simp only [] at h
        rcases hpe : processEvent ride_bonus current_step scores evt with
          _ | ⟨scores2, entry⟩ <;> rw [hpe] at h
        · simp at h
        · simp only [] at h
          rcases hr : tickFleet ride_bonus current_step scores2 rest (i + 1) with
            _ | ⟨fs, sc, tr⟩ <;> rw [hr] at h
          · simp at h
          · simp only [Option.some.injEq, Prod.mk.injEq] at h
            obtain ⟨h2, -, -⟩ := h
            rw [← h2]
            simp only [List.map_cons, List.flatten_cons]
            rw [ih scores2 (i + 1) fs sc tr hr, tick_vehicleJobIds v current_step evt w ht]

/-- An assignment produced by the candidate scan names an idle fleet
vehicle, and the assigned vehicle is that vehicle with the job buffered. -/
theorem scanCandidates_assign_mem (fleet : List Vehicle) (relax_start relax_end : Bool)
    (current_step : Int) (j : Job) :
    ∀ (l cands cands' : List Nat) (i : Nat) (v1 : Vehicle),
      scanCandidates fleet relax_start relax_end current_step j l cands =
        some (cands', some (i, v1)) →
      ∃ v, fleet.get? i = some v ∧ v.is_idle = true ∧ v.job_buffer = none
        ∧ v1 = { v with job_buffer := some j } := by
  intro l
  induction l with
  | nil =>
    intro cands cands' i v1 h
    simp [scanCandidates] at h
  | cons i0 rest ih =>
    intro cands cands' i v1 h
    rw [scanCandidates] at h
    rcases hg : fleet.get? i0 with _ | v0 <;> rw [hg] at h <;> (try simp only [] at h)
    · simp at h
    · by_cases hid : v0.is_idle = true
      · rw [if_pos hid] at h
        rcases hp : v0.current_pos with _ | p <;> rw [hp] at h <;> (try simp only [] at h)
        · simp at h
        · by_cases h1 : (relax_end = true ∨
              current_step + (p.dist j.start + j.dist) < j.latest_finish)
          · rw [if_pos h1] at h
            by_cases h2 : (relax_start = true ∨
                current_step + p.dist j.start < j.earliest_start)
            · rw [if_pos h2] at h
              have hb := is_idle_buffer_none v0 hid
              rw [queue_new_job_of_buffer_none v0 j hb] at h
              simp only [Option.some.injEq, Prod.mk.injEq] at h
              obtain ⟨-, hi, hv1⟩ := h
              subst hi
              exact ⟨v0, hg, hid, hb, hv1.symm⟩
            · rw [if_neg h2] at h
              exact ih _ _ _ _ h
          · rw [if_neg h1] at h
            exact ih _ _ _ _ h
      · rw [if_neg hid] at h
        exact ih _ _ _ _ h

/-- A job-scan assignment removes exactly the assigned job from the pending
pool (up to permutation of the id list) and buffers it on an idle vehicle. -/
theorem scanJobs_assign_perm (fleet : List Vehicle) (tree : List (Coord × Nat))
    (relax_start relax_end : Bool) (current_step : Int) :
    ∀ (jobs : List Job) (cands cands' : List Nat) (jobs' : List Job) (j : Job)
      (i : Nat) (v1 : Vehicle),
      scanJobs fleet tree relax_start relax_end current_step jobs cands =
        some (cands', some (jobs', j, i, v1)) →
      List.Perm (jobs.map Job.id) (j.id :: jobs'.map Job.id)
      ∧ ∃ v, fleet.get? i = some v ∧ v.is_idle = true ∧ v.job_buffer = none
          ∧ v1 = { v with job_buffer := some j } := by
  intro jobs
  induction jobs with
  | nil =>
    intro cands cands' jobs' j i v1 h
    simp [scanJobs] at h
  | cons j0 rest ih =>
    intro cands cands' jobs' j i v1 h
    unfold scanJobs at h
    rcases hs : scanCandidates fleet relax_start relax_end current_step j0
        (orderFor tree j0.start) cands with _ | ⟨cands1, r⟩ <;> rw [hs] at h
    · simp at h
    · rcases r with _ | ⟨i0, v0⟩
      · simp only [] at h
        rcases hr : scanJobs fleet tree relax_start relax_end current_step rest cands1 with
          _ | ⟨cands2, r2⟩ <;> rw [hr] at h
        · simp at h
        · rcases r2 with _ | ⟨jr, j2, i2, v2⟩
          · simp at h
          · simp only [Option.map_some', Option.some.injEq, Prod.mk.injEq] at h
            obtain ⟨-, hj, hj2, hi2, hv2⟩ := h
            obtain ⟨hperm, hex⟩ := ih cands1 cands2 jr j2 i2 v2 hr
            subst hj
            subst hj2
            subst hi2
            subst hv2
            constructor
            · simp only [List.map_cons]
              exact (hperm.cons j0.id).trans (List.Perm.swap _ j0.id _)
            · exact hex
      · simp only [Option.some.injEq, Prod.mk.injEq] at h
        obtain ⟨-, hj, hjj, hii, hvv⟩ := h
        subst hj
        subst hjj
        subst hii
        subst hvv
        exact ⟨List.Perm.refl _, scanCandidates_assign_mem fleet relax_start relax_end
          current_step _ _ _ _ _ _ hs⟩

/-- Replacing the vehicle at `i` by one holding one extra id permutes the
flattened id lists accordingly. -/
theorem flatten_set_perm :
    ∀ (l : List Vehicle) (i : Nat) (v w : Vehicle) (x : Int),
      l.get? i = some v → vehicleJobIds w = x :: vehicleJobIds v →
      List.Perm (((l.set i w).map vehicleJobIds).flatten)
        (x :: (l.map vehicleJobIds).flatten) := by
  intro l
  induction l with
  | nil => intro i v w x hget hw; simp at hget
  | cons a rest ih =>
    intro i v w x hget hw
    cases i with
    | zero =>
      simp only [List.get?] at hget
      injection hget with hget
      subst hget
      simp only [List.set, List.map_cons, List.flatten_cons, hw]
      exact List.Perm.refl _
    | succ n =>
      simp only [List.get?] at hget
      simp only [List.set, List.map_cons, List.flatten_cons]
      exact ((ih n v w x hget hw).append_left _).trans List.perm_middle

/-- The whole dispatch loop permutes job ids between the pending pool and
the vehicles' buffers, never duplicating or dropping one. -/
theorem funkyLoop_perm (current_step : Int) (tree : List (Coord × Nat)) :
    ∀ (fleet : List Vehicle) (jobs : List Job) (relax_start relax_end : Bool),
      ∀ (fleet1 : List Vehicle) (jobs1 : List Job),
      funkyLoop current_step tree fleet jobs relax_start relax_end = some (fleet1, jobs1) →
      List.Perm (jobs1.map Job.id ++ (fleet1.map vehicleJobIds).flatten)
        (jobs.map Job.id ++ (fleet.map vehicleJobIds).flatten) := by
  intro fleet jobs rs re
  induction fleet, jobs, rs, re using funkyLoop.induct current_step tree with
  | case1 fleet jobs rs re hscan =>
    intro fleet1 jobs1 hres
    rw [funkyLoop, hscan] at hres
    simp at hres
  | case2 fleet jobs rs re fst jobs' j i v1 hscan ih =>
    intro fleet1 jobs1 hres
    rw [funkyLoop, hscan] at hres
    dsimp only at hres
    have hp1 := ih fleet1 jobs1 hres
    obtain ⟨hpj, v, hget, hidle, hbuf, hv1⟩ :=
      scanJobs_assign_perm fleet tree rs re current_step jobs [] fst jobs' j i v1 hscan
    have hw : vehicleJobIds v1 = j.id :: vehicleJobIds v := by
      subst hv1
      simp [vehicleJobIds, hbuf]
    have hset := flatten_set_perm fleet i v v1 j.id hget hw
    have step1 := hset.append_left (jobs'.map Job.id)
    have step3 := hpj.symm
    exact hp1.trans ((step1.trans List.perm_middle).trans
      (step3.append_right ((fleet.map vehicleJobIds).flatten)))
  | case3 fleet jobs rs re cands hscan hc =>
    intro fleet1 jobs1 hres
    rw [funkyLoop, hscan] at hres
    dsimp only at hres
    rw [if_pos hc] at hres
    simp only [Option.some.injEq, Prod.mk.injEq] at hres
    obtain ⟨h1, h2⟩ := hres
    subst h1
    subst h2
    exact List.Perm.refl _
  | case4 fleet jobs rs re cands hscan hc hor hrs ih =>
    intro fleet1 jobs1 hres
    rw [funkyLoop, hscan] at hres
    dsimp only at hres
    rw [if_neg hc, dif_pos hor, dif_pos hrs] at hres
    exact ih fleet1 jobs1 hres
  | case5 fleet jobs rs re cands hscan hc hor hrs ih =>
    intro fleet1 jobs1 hres
    rw [funkyLoop, hscan] at hres
    dsimp only at hres
    rw [if_neg hc, dif_pos hor, dif_neg hrs] at hres
    exact ih fleet1 jobs1 hres
  | case6 fleet jobs rs re cands hscan hc hor =>
    intro fleet1 jobs1 hres
    rw [funkyLoop, hscan] at hres
    dsimp only at hres
    rw [if_neg hc, dif_neg hor] at hres
    simp at hres

/-- `funky_scheduling` permutes job ids between the pool and the fleet. -/
theorem funky_scheduling_perm (current_step : Int) (tree : List (Coord × Nat))
    (fleet : List Vehicle) (jobs : List Job) (fleet1 : List Vehicle) (jobs1 : List Job)
    (h : funky_scheduling current_step tree fleet jobs = some (fleet1, jobs1)) :
    List.Perm (jobs1.map Job.id ++ (fleet1.map vehicleJobIds).flatten)
      (jobs.map Job.id ++ (fleet.map vehicleJobIds).flatten) := by
  unfold funky_scheduling at h
  by_cases ht : tree.length > 0
  · rw [if_pos ht] at h
    exact funkyLoop_perm current_step tree fleet jobs false false fleet1 jobs1 h
  · rw [if_neg ht] at h
    simp only [Option.some.injEq, Prod.mk.injEq] at h
    obtain ⟨h1, h2⟩ := h
    subst h1
    subst h2
    exact List.Perm.refl _

/-- One simulation step permutes the state's job ids. -/
theorem simStep_perm (ride_bonus current_step : Int) (st st' : SimState)
    (h : simStep ride_bonus current_step st = some st') :
    List.Perm (stateJobIds st') (stateJobIds st) := by
  unfold simStep at h
  rcases htv : tick_vehicles ride_bonus current_step st with _ | ⟨st1, tree⟩ <;>
    rw [htv] at h <;> (try simp only [] at h)
  · simp at h
  · rcases hf : funky_scheduling current_step tree st1.fleet st1.rem_jobs with
      _ | ⟨fleet1, jobs1⟩ <;> rw [hf] at h <;> (try simp only [] at h)
    · simp at h
    · simp only [Option.some.injEq] at h
      subst h
      unfold tick_vehicles at htv
      rcases htf : tickFleet ride_bonus current_step st.job_scores st.fleet 0 with
        _ | ⟨f1, sc1, tr⟩ <;> rw [htf] at htv <;> (try simp only [] at htv)
      · simp at htv
      · simp only [Option.some.injEq, Prod.mk.injEq] at htv
        obtain ⟨h1, h2⟩ := htv
        subst h2
        subst h1
        have hperm := funky_scheduling_perm current_step tr
          ({ st with fleet := f1, job_scores := sc1 } : SimState).fleet
          ({ st with fleet := f1, job_scores := sc1 } : SimState).rem_jobs fleet1 jobs1 hf
        have hfl : (f1.map vehicleJobIds).flatten =
            (st.fleet.map vehicleJobIds).flatten :=
          tickFleet_flatten ride_bonus current_step st.fleet st.job_scores 0 f1 sc1 tr htf
        simpa [stateJobIds, hfl] using hperm

/-- Iterated simulation steps permute the state's job ids. -/
theorem runSteps_perm (ride_bonus : Int) :
    ∀ (n : Nat) (current_step : Int) (st st' : SimState),
      runSteps ride_bonus n current_step st = some st' →
      List.Perm (stateJobIds st') (stateJobIds st) := by
  intro n
  induction n with
  | zero =>
    intro s st st' h
    simp only [runSteps, Option.some.injEq] at h
    subst h
    exact List.Perm.refl _
  | succ m ih =>
    intro s st st' h
    rw [runSteps] at h
    rcases hs : simStep ride_bonus s st with _ | st1 <;> rw [hs] at h <;>
      (try simp only [] at h)
    · simp at h
    · exact (ih (s + 1) st1 st' h).trans (simStep_perm ride_bonus s st st1 hs)

/-- The flattened assignment histories form a sublist of the flattened held
job ids. -/
theorem flatten_hist_sublist :
    ∀ (l : List Vehicle),
      List.Sublist ((l.map (fun v => v.jobs.map Job.id)).flatten)
        ((l.map vehicleJobIds).flatten) := by
  intro l
  induction l with
  | nil => simp
  | cons v rest ih =>
    simp only [List.map_cons, List.flatten_cons]
    exact List.Sublist.append (List.sublist_append_right _ _) ih

/-- C8: starting from a state whose job ids (pending pool, buffers and
histories together) are distinct — as after setup, where all histories and
buffers are empty and the parsed job ids are distinct — after any number of
simulation steps each job id appears in the assignment history of at most
one vehicle, and at most once in that history. -/
theorem job_ids_unique (ride_bonus : Int) (st0 : SimState)
    (h0 : (stateJobIds st0).Nodup) :
    ∀ (n : Nat) (current_step : Int) (st' : SimState),
      runSteps ride_bonus n current_step st0 = some st' →
      ((st'.fleet.map (fun v => v.jobs.map Job.id)).flatten).Nodup := by
  intro n s st' h
  have hperm := runSteps_perm ride_bonus n s st0 st' h
  have hmain : (stateJobIds st').Nodup := hperm.nodup_iff.mpr h0
  rw [stateJobIds] at hmain
  have hright := hmain.of_append_right
  exact List.Nodup.sublist (flatten_hist_sublist st'.fleet) hright

/-- Witness for C8 at a concrete one-step run. -/
theorem job_ids_unique_witness :
    ((([] : List Vehicle).map (fun v => v.jobs.map Job.id)).flatten).Nodup :=
  job_ids_unique 7 ⟨[], [⟨0, ⟨0, 0⟩, ⟨0, 2⟩, 5, 20⟩], []⟩ (by decide) 1 1
    ⟨[], [⟨0, ⟨0, 0⟩, ⟨0, 2⟩, 5, 20⟩], []⟩ (by decide)
